import Mathlib

/-!
Shallow embedding of the trace-forest reconstruction engine of
`vmprof/log/objects.py` (with `vmprof/log/constants.py`), modelling the
Python 2 string/bytes semantics the module was written for: byte strings
are `List Nat`, Python `int` is `Int`, raised exceptions are `Except PyErr`,
and the in-place mutations of the source become explicit state passing.
-/

deriving instance DecidableEq for Except

namespace VMLog

/-- Exceptions the embedded code can raise. -/
inductive PyErr where
  | keyError
  | typeError
  | attributeError
  | notImplementedError
  | assertionError
  | structError
  | ioError
  | indexError
  deriving DecidableEq, Repr

/-- Association-list lookup, modelling Python `dict.get` / `dict[k]` access
(first binding wins; our maps never hold duplicate keys). -/
def alistGet {κ β : Type} [DecidableEq κ] (k : κ) : List (κ × β) → Option β
  | [] => none
  | (k2, v) :: rest => if k2 = k then some v else alistGet k rest

/-- Association-list update, modelling Python `dict[k] = v`: an existing key
keeps its position, a new key is appended (Python dicts preserve insertion
order). -/
def alistSet {κ β : Type} [DecidableEq κ] (k : κ) (v : β) : List (κ × β) → List (κ × β)
  | [] => [(k, v)]
  | (k2, v2) :: rest => if k2 = k then (k2, v) :: rest else (k2, v2) :: alistSet k v rest

/-- Python slice-bound normalisation: a negative bound counts from the end,
then the bound is clamped into `[0, len]`. -/
def sliceBound (len : Nat) (i : Int) : Nat :=
  let j : Int := if i < 0 then i + len else i
  if j < 0 then 0 else min j.toNat len

/-- Python slicing `s[lo:hi]` (`none` for an omitted bound). -/
def pySlice {α : Type} (s : List α) (lo hi : Option Int) : List α :=
  let a := match lo with | none => 0 | some i => sliceBound s.length i
  let b := match hi with | none => s.length | some i => sliceBound s.length i
  (s.take b).drop a

/-- Python indexing `l[i]`: a negative index counts from the end; an index
out of range raises `IndexError`. -/
def pyGetItem {α : Type} (l : List α) (i : Int) : Except PyErr α :=
  let j := if i < 0 then i + l.length else i
  if h : 0 ≤ j ∧ j.toNat < l.length then .ok (l.get ⟨j.toNat, h.2⟩) else .error .indexError

/-- Python `range(a, b)` as a list of `Int`. -/
def pyRange (a b : Int) : List Int :=
  (List.range (b - a).toNat).map (fun k => a + k)

/-- Python `set.add`: no-op when the element is present, otherwise append
(sets are modelled as duplicate-free lists in insertion order). -/
def setAdd {α : Type} [DecidableEq α] (s : List α) (x : α) : List α :=
  if x ∈ s then s else s ++ [x]

/-- A merge-point semantic value: Python strings (bytes under Python 2) or
integers. -/
inductive PyVal where
  | s (v : List Nat)
  | i (v : Int)
  deriving DecidableEq, Repr

/-- Python truthiness of a merge-point value. -/
def pyTruthy : PyVal → Bool
  | .s v => !v.isEmpty
  | .i v => decide (v ≠ 0)

/-- Converting a value to an `int` where the source performs integer
arithmetic on it; a string raises `TypeError` (as the subtraction inside
`iter_ranges` would). -/
def pyInt : PyVal → Except PyErr Int
  | .i v => .ok v
  | .s _ => .error .typeError

/-- `FlatOp.__init__`: one decoded operation with an optional attached
core dump `(relative_offset, raw_bytes)`. -/
structure FlatOp where
  opnum : Nat
  opname : String
  args : List String
  result : Option String
  descr : Option String
  descr_number : Option Nat
  core_dump : Option (Int × List Nat)
  deriving DecidableEq, Repr

/-- `FlatOp.has_descr(descr=None)`: with a falsy argument (`None` or `0`)
tests `self.descr is not None`; otherwise compares the argument with
`self.descr_number`. -/
def FlatOp.has_descr (op : FlatOp) (descr : Option Nat) : Bool :=
  match descr with
  | none => op.descr.isSome
  | some d => if d = 0 then op.descr.isSome else decide (op.descr_number = some d)

/-- One iteration of the patch loop in `FlatOp.get_core_dump`: a patch
`(timepos, addr, content)` recorded no later than `timeval` overlays the
buffer, translated exactly from the source (including its slice bounds
`content_end = len(content) - 1` in the non-truncating branch). -/
def applyPatch (op_off : Int) (base_addr : Int) (timeval : Int)
    (coredump : List Nat) (patch : Int × Int × List Nat) : List Nat :=
  let timepos := patch.1
  let addr := patch.2.1
  let content := patch.2.2
  if timeval < timepos then coredump
  else
    let patch_start : Int := (addr - base_addr) - op_off
    let patch_end0 : Int := patch_start + content.length
    let content_end0 : Int := (content.length : Int) - 1
    let patch_end : Int :=
      if patch_end0 ≥ (coredump.length : Int) then (coredump.length : Int) else patch_end0
    let content_end : Int :=
      if patch_end0 ≥ (coredump.length : Int) then (coredump.length : Int) - patch_start
      else content_end0
    pySlice coredump none (some patch_start)
      ++ pySlice content none (some content_end)
      ++ pySlice coredump (some patch_end) none

/-- `FlatOp.get_core_dump(base_addr, patches, timeval)`: starts from a copy of
the captured bytes and folds every patch over it; `self.core_dump[1]` raises
`TypeError` when no capture was attached (`core_dump` is `None`). -/
def FlatOp.get_core_dump (op : FlatOp) (base_addr : Int)
    (patches : List (Int × Int × List Nat)) (timeval : Int) : Except PyErr (List Nat) :=
  match op.core_dump with
  | none => .error .typeError
  | some (rel_pos, dump) => .ok (patches.foldl (applyPatch rel_pos base_addr timeval) dump)

/-- `constants.SEM_TYPE_NAMES`: the semantic-tag lookup table; an unknown tag
raises `KeyError`. -/
def SEM_TYPE_NAMES (t : Nat) : Except PyErr String :=
  if t = 0x10 then .ok "opcode"
  else if t = 0x8 then .ok "scope"
  else if t = 0x1 then .ok "filename"
  else if t = 0x4 then .ok "index"
  else if t = 0x2 then .ok "lineno"
  else .error .keyError

/-- One step of the scanning loop of `MergePoint.get_source_line`,
accumulating the `filename` and `lineno` slots. -/
def gslStep (acc : Option PyVal × Option PyVal) (tv : Nat × PyVal) :
    Except PyErr (Option PyVal × Option PyVal) :=
  match SEM_TYPE_NAMES tv.1 with
  | .error e => .error e
  | .ok name =>
    let acc := if name = "filename" then (some tv.2, acc.2) else acc
    let acc := if name = "lineno" then (acc.1, some tv.2) else acc
    .ok acc

/-- `MergePoint.get_source_line`: scan the `(sem_type, value)` pairs for the
"filename" and "lineno" tags; return `(0, None)` when either is missing,
otherwise `(lineno, filename)`. -/
def MergePoint.get_source_line (values : List (Nat × PyVal)) :
    Except PyErr (PyVal × Option PyVal) :=
  match values.foldlM gslStep ((none, none) : Option PyVal × Option PyVal) with
  | .error e => .error e
  | .ok (some filename, some lineno) => .ok (lineno, some filename)
  | .ok _ => .ok (.i 0, none)

/-- An operation record: the closed variant over `FlatOp` and `MergePoint`
(the source models `MergePoint` as a subclass of `FlatOp`). -/
inductive Op where
  | flat (op : FlatOp)
  | mergePoint (values : List (Nat × PyVal))
  deriving DecidableEq, Repr

/-- `has_descr` dispatched over the variant: `MergePoint.has_descr` always
returns `False`. -/
def Op.has_descr (op : Op) (descr : Option Nat) : Bool :=
  match op with
  | .flat fo => fo.has_descr descr
  | .mergePoint _ => false

/-- Reading `op.descr_number` in `Trace.add_instr`; on a `MergePoint` the
attribute does not exist, but the source only reads it behind
`op.has_descr()`, which is `False` there, so the `none` default is never
observed. -/
def Op.descr_number : Op → Option Nat
  | .flat fo => fo.descr_number
  | .mergePoint _ => none

/-- `get_core_dump` dispatched over the variant: `MergePoint.get_core_dump`
raises `NotImplementedError`. -/
def Op.get_core_dump (op : Op) (base_addr : Int)
    (patches : List (Int × Int × List Nat)) (timeval : Int) : Except PyErr (List Nat) :=
  match op with
  | .flat fo => fo.get_core_dump base_addr patches timeval
  | .mergePoint _ => .error .notImplementedError

/-- `Stage.__init__(mark, timeval)`: an ordered sequence of operations for one
phase, stamped with the forest clock at creation. -/
structure Stage where
  mark : String
  ops : List Op
  timeval : Nat
  deriving DecidableEq, Repr

/-- A `Stage` object carries no `__bool__`/`__len__` override, so Python
truthiness of a stage is always `True` (the `if not stage` guard in
`Trace.get_core_dump` can never fire). -/
def stageTruthy (_ : Stage) : Bool := true

/-- `Trace.__init__`: one compiled unit. The `forest` back-reference of the
source is modelled by passing the forest explicitly to the methods that read
it; the fields `roots`-style bookkeeping the claims never touch
(`last_trace`, `resops`, `keep`) are not modelled. -/
structure Trace where
  trace_type : String
  unique_id : Nat
  inputargs : List String
  stages : List (String × Stage)
  last_mark : Option String
  addrs : Int × Int
  my_patches : Option (List (Int × Int × List Nat))
  bridges : List (Nat × Nat × Int)
  descr_numbers : List (Option Nat)
  counter : Nat
  merge_point_files : List (PyVal × List PyVal)
  deriving DecidableEq, Repr

/-- `Trace.get_stage(type)`: `assert type is not None`, then a plain dict
index `self.stages[type]`, so a missing phase raises `KeyError`. -/
def Trace.get_stage (t : Trace) (ty : Option String) : Except PyErr Stage :=
  match ty with
  | none => .error .assertionError
  | some name =>
    match alistGet name t.stages with
    | some st => .ok st
    | none => .error .keyError

/-- `Trace.stitch_bridge(timeval, descr_number, addr_to)`: append-only. -/
def Trace.stitch_bridge (t : Trace) (timeval : Nat) (descr_number : Nat) (addr_to : Int) :
    Trace :=
  { t with bridges := t.bridges ++ [(timeval, descr_number, addr_to)] }

/-- `Trace.add_instr(op)`: register `op.descr_number` when `op.has_descr()`,
append `op` to the stage named by `last_mark`, and for a merge point with a
truthy filename record the line number in `merge_point_files` (a
`defaultdict(list)`). -/
def Trace.add_instr (t : Trace) (op : Op) : Except PyErr Trace :=
  let t1 := if op.has_descr none then
      { t with descr_numbers := setAdd t.descr_numbers op.descr_number } else t
  match t1.last_mark with
  | none => .error .assertionError
  | some mname =>
    match alistGet mname t1.stages with
    | none => .error .keyError
    | some stage =>
      let t2 := { t1 with stages := alistSet mname { stage with ops := stage.ops ++ [op] } t1.stages }
      match op with
      | .flat _ => .ok t2
      | .mergePoint values =>
        match MergePoint.get_source_line values with
        | .error e => .error e
        | .ok (lineno, filename) =>
          match filename with
          | none => .ok t2
          | some fv =>
            if pyTruthy fv then
              let prev := (alistGet fv t2.merge_point_files).getD []
              .ok { t2 with merge_point_files := alistSet fv (prev ++ [lineno]) t2.merge_point_files }
            else .ok t2

/-- `Trace.is_bridge`. -/
def Trace.is_bridge (t : Trace) : Bool := t.trace_type = "bridge"

/-- `Trace.set_inputargs(args)`. -/
def Trace.set_inputargs (t : Trace) (args : List String) : Trace :=
  { t with inputargs := args }

/-- `Trace.set_addr_bounds(a, b)`. -/
def Trace.set_addr_bounds (t : Trace) (a b : Int) : Trace :=
  { t with addrs := (a, b) }

/-- `Trace.contains_addr(addr)`: inclusive bounds check. -/
def Trace.contains_addr (t : Trace) (addr : Int) : Bool :=
  decide (t.addrs.1 ≤ addr ∧ addr ≤ t.addrs.2)

/-- `Trace.contains_patch(addr)`: same inclusive bounds check (`self.addrs`
is initialised to `(-1, -1)` and only ever reassigned a pair, so its
`is None` guard can never fire). -/
def Trace.contains_patch (t : Trace) (addr : Int) : Bool :=
  decide (t.addrs.1 ≤ addr ∧ addr ≤ t.addrs.2)

/-- Helper for `iter_ranges`: the generator loop over the sorted tail, with
`first`/`last` tracking the current run. The source's inner
`raise StopIteration` branch is unreachable (`pos + 1 < len(numbers)` always
holds for an index into `numbers[1:]`), so only the live paths are
translated. -/
def iter_ranges_go (first last : Int) : List Int → List (Int × Int)
  | [] => [(first, last)]
  | i :: rest =>
    if i - first > 50 then (first, last) :: iter_ranges_go i i rest
    else iter_ranges_go first i rest

/-- `iter_ranges(numbers)`: sort, then emit closed ranges; `range(a, b+1)` is
represented by the pair `(a, b)`. On empty input the generator raises
`StopIteration` before its first yield, which terminates iteration with no
items (the generator protocol of the Python 2 era the module targets). -/
def iter_ranges (numbers : List Int) : List (Int × Int) :=
  match List.insertionSort (fun a b => a ≤ b) numbers with
  | [] => []
  | n :: rest => iter_ranges_go n n rest

/-- `constants.MARK_TRACE`. -/
def MARK_TRACE : Char := Char.ofNat 0x17

/-- `constants.MARK_TRACE_OPT`. -/
def MARK_TRACE_OPT : Char := Char.ofNat 0x18

/-- `constants.MARK_TRACE_ASM`. -/
def MARK_TRACE_ASM : Char := Char.ofNat 0x19

/-- Modelled from the spec: `encode_source_code_lines` references
`const.MARK_SOURCE_CODE`, which is missing from
`src/vmprof/log/constants.py`. Following §6/§9 of the design (a single-byte
marker adjacent to the contiguous mark range `0x10`–`0x22`), it is assigned
the next free byte. -/
def MARK_SOURCE_CODE : Nat := 0x23

/-- `TraceForest.__init__`: the top-level owner. `patches` holds
`(timeval, addr, content)` triples; `source_lines` maps a file name to its
accumulated `(lineno, raw_line_bytes)` pairs. The fields the verified
operations never read (`roots`, `last_trace`, `resops`, `keep`) are not
modelled. -/
structure TraceForest where
  version : Nat
  traces : List (Nat × Trace)
  addrs : List (Int × Trace)
  timepos : Nat
  patches : List (Int × Int × List Nat)
  source_lines : List (PyVal × List (Int × List Nat))
  deriving DecidableEq, Repr

/-- `Trace.start_mark(mark)`: map the marker byte to a phase name; a repeated
"noopt" marker is the unrolling no-op; any other marker (re)creates the
phase's stage stamped with `self.forest.timepos`. A marker outside the three
trace markers fails the `assert`. -/
def Trace.start_mark (f : TraceForest) (t : Trace) (mark : Char) : Except PyErr Trace :=
  if mark = MARK_TRACE_OPT then
    .ok { t with last_mark := some "opt",
                 stages := alistSet "opt" ⟨"opt", [], f.timepos⟩ t.stages }
  else if mark = MARK_TRACE_ASM then
    .ok { t with last_mark := some "asm",
                 stages := alistSet "asm" ⟨"asm", [], f.timepos⟩ t.stages }
  else if mark = MARK_TRACE then
    if t.last_mark = some "noopt" then .ok t
    else
      .ok { t with last_mark := some "noopt",
                   stages := alistSet "noopt" ⟨"noopt", [], f.timepos⟩ t.stages }
  else .error .assertionError

/-- `Trace.get_core_dump(timeval=-1, opslice=(0,-1))`: `timeval == -1` means
"newest" (`2**31 - 1`); the trace-relevant patches are the forest patches
within the address bounds (the cached `my_patches` when already computed);
the requested slice of the assembly stage is reassembled op by op. The
source's `end = len(opslice)` reads the length of the `opslice` pair itself,
which is the constant `2`. -/
def Trace.get_core_dump (f : TraceForest) (t : Trace) (timeval0 : Int) (opslice : Int × Int) :
    Except PyErr (Option (List Nat)) :=
  let timeval : Int := if timeval0 = -1 then 2 ^ 31 - 1 else timeval0
  let my_patches :=
    match t.my_patches with
    | some ps => ps
    | none => f.patches.filter (fun p => t.contains_patch p.2.1)
  let start := opslice.1
  let e1 : Int := if opslice.2 = -1 then (2 : Int) else opslice.2
  match t.get_stage (some "asm") with
  | .error e => .error e
  | .ok stage =>
    if stageTruthy stage = false then .ok none
    else
      match (pySlice stage.ops (some start) (some e1)).mapM
          (fun op => Op.get_core_dump op t.addrs.1 my_patches timeval) with
      | .error e => .error e
      | .ok dumps => .ok (some dumps.flatten)

/-- `TraceForest.get_trace(id)`. -/
def TraceForest.get_trace (f : TraceForest) (id : Nat) : Option Trace :=
  alistGet id f.traces

/-- `TraceForest.get_trace_by_addr(addr)`: `self.addrs.get(addr, None)`. -/
def TraceForest.get_trace_by_addr (f : TraceForest) (addr : Int) : Option Trace :=
  alistGet addr f.addrs

/-- `TraceForest.patch_memory(addr, content, timeval)`. -/
def TraceForest.patch_memory (f : TraceForest) (addr : Int) (content : List Nat)
    (timeval : Int) : TraceForest :=
  { f with patches := f.patches ++ [(timeval, addr, content)] }

/-- `TraceForest.time_tick()`. -/
def TraceForest.time_tick (f : TraceForest) : TraceForest :=
  { f with timepos := f.timepos + 1 }

/-- The `for ... else` loop of `TraceForest.stitch_bridge`: the first trace
owning the descriptor receives the bridge and the loop breaks; `none` when no
trace owns it. -/
def stitch_go (timepos : Nat) (d : Nat) (a : Int) :
    List (Nat × Trace) → Option (List (Nat × Trace))
  | [] => none
  | (tid, tr) :: rest =>
    if some d ∈ tr.descr_numbers then some ((tid, tr.stitch_bridge timepos d a) :: rest)
    else
      match stitch_go timepos d a rest with
      | some rest2 => some ((tid, tr) :: rest2)
      | none => none

/-- `TraceForest.stitch_bridge(descr_number, addr_to)`: the `for ... else`
raises `NotImplementedError` when no trace defines the descriptor. -/
def TraceForest.stitch_bridge (f : TraceForest) (d : Nat) (a : Int) :
    Except PyErr TraceForest :=
  match stitch_go f.timepos d a f.traces with
  | some ts => .ok { f with traces := ts }
  | none => .error .notImplementedError

/-- Modelled from the spec: the byte-stream decoder (not under `src/`) is
what fills `TraceForest.addrs`; per §3, the mapping "machine address → Trace"
is "populated once a trace's address bounds are known", so setting the bounds
of trace `uid` to `(a, b)` also indexes the trace under its address `a`. -/
def TraceForest.register_addr_bounds (f : TraceForest) (uid : Nat) (a b : Int) : TraceForest :=
  match alistGet uid f.traces with
  | none => f
  | some t =>
    let t2 := t.set_addr_bounds a b
    { f with traces := alistSet uid t2 f.traces, addrs := alistSet a t2 f.addrs }

/-- State threaded through `TraceForest.extract_source_code_lines`: the
per-extraction memo `file_contents`, the forest's `source_lines` being
extended, and (instrumentation of the only I/O) the ordered list of files
actually opened. -/
structure ExtractSt where
  file_contents : List (PyVal × List (List Nat))
  source_lines : List (PyVal × List (Int × List Nat))
  opens : List PyVal
  deriving DecidableEq, Repr

/-- The inner `for r in range:` loop: append `(r, split_lines[r-1])` entry by
entry; an `IndexError` stops the loop but the appends already made persist
(they are in-place mutations of the `saved_lines` list). -/
def readRange (split_lines : List (List Nat)) :
    List (Int × List Nat) → List Int → List (Int × List Nat) × Option PyErr
  | acc, [] => (acc, none)
  | acc, rr :: rest =>
    match pyGetItem split_lines (rr - 1) with
    | .error e => (acc, some e)
    | .ok line => readRange split_lines (acc ++ [(rr, line)]) rest

/-- The outer `for range in iter_ranges(lines):` loop, stopping at the first
failure while keeping the entries appended so far. -/
def readLinesInto (split_lines : List (List Nat)) :
    List (Int × List Nat) → List (Int × Int) → List (Int × List Nat) × Option PyErr
  | acc, [] => (acc, none)
  | acc, r :: rs =>
    let res := readRange split_lines acc (pyRange r.1 (r.2 + 1))
    match res.2 with
    | none => readLinesInto split_lines res.1 rs
    | some e => (res.1, some e)

/-- The second half of one `(file, lines)` iteration of
`extract_source_code_lines`, after the file content is available: the
`defaultdict(list)` access `self.source_lines[file]` first materialises the
file's entry; the line numbers are converted to integers (a non-integer
raises `TypeError` inside the sort/subtraction of `iter_ranges`); the ranged
lines are then appended in place, so entries appended before a failure
persist. Exceptions are modelled as `some err` alongside the mutated state,
which is retained exactly as Python's in-place mutation retains it. -/
def extractOneRest (st1 : ExtractSt) (file : PyVal) (lines : List PyVal)
    (split_lines : List (List Nat)) : ExtractSt × Option PyErr :=
  let saved0 := (alistGet file st1.source_lines).getD []
  let st2 := { st1 with source_lines := alistSet file saved0 st1.source_lines }
  match lines.mapM pyInt with
  | .error e => (st2, some e)
  | .ok linesI =>
    let res := readLinesInto split_lines saved0 (iter_ranges linesI)
    ({ st2 with source_lines := alistSet file res.1 st2.source_lines }, res.2)

/-- One `(file, lines)` iteration of `extract_source_code_lines`: load the
file into the memo unless already read. The filesystem is the external
collaborator `fs`, mapping a file name to its split lines, or `none` when the
file cannot be read; `open` on an unreadable file raises `IOError` before
anything about that file is recorded, and the source has no handler for it. -/
def extractOne (fs : PyVal → Option (List (List Nat))) (st : ExtractSt) (file : PyVal)
    (lines : List PyVal) : ExtractSt × Option PyErr :=
  match alistGet file st.file_contents with
  | some c => extractOneRest st file lines c
  | none =>
    match fs file with
    | none => (st, some .ioError)
    | some data =>
      extractOneRest
        { st with file_contents := alistSet file data st.file_contents,
                  opens := st.opens ++ [file] }
        file lines data

/-- The `for file, lines in trace.merge_point_files.items()` loop for one
trace: a raised exception stops the iteration, with all mutations made so far
retained. -/
def extractPairs (fs : PyVal → Option (List (List Nat))) :
    ExtractSt → List (PyVal × List PyVal) → ExtractSt × Option PyErr
  | st, [] => (st, none)
  | st, q :: ql =>
    let r := extractOne fs st q.1 q.2
    match r.2 with
    | none => extractPairs fs r.1 ql
    | some e => (r.1, some e)

def extractTrace (fs : PyVal → Option (List (List Nat))) (st : ExtractSt) (p : Nat × Trace) :
    ExtractSt × Option PyErr :=
  extractPairs fs st p.2.merge_point_files

/-- The `for _, trace in self.traces.items()` loop, stopping at the first
raised exception. -/
def extractTraces (fs : PyVal → Option (List (List Nat))) :
    ExtractSt → List (Nat × Trace) → ExtractSt × Option PyErr
  | st, [] => (st, none)
  | st, p :: l =>
    let r := extractTrace fs st p
    match r.2 with
    | none => extractTraces fs r.1 l
    | some e => (r.1, some e)

/-- `TraceForest.extract_source_code_lines()`: walk every trace's merge-point
file index, memoising file reads in `file_contents`. Returns the forest with
its `source_lines` as mutated so far (in-place mutations persist even when an
exception propagates), the list of files actually read, and the raised
exception, if any. -/
def TraceForest.extract_source_code_lines (f : TraceForest)
    (fs : PyVal → Option (List (List Nat))) : (TraceForest × List PyVal) × Option PyErr :=
  let res := extractTraces fs
    { file_contents := [], source_lines := f.source_lines, opens := [] } f.traces
  (({ f with source_lines := res.1.source_lines }, res.1.opens), res.2)

/-- The characters Python's `str.lstrip()` removes: space, tab, newline,
carriage return, vertical tab, form feed. -/
def PY_WS : List Nat := [0x20, 0x09, 0x0A, 0x0D, 0x0B, 0x0C]

/-- `line.lstrip()` on a byte string. -/
def lstripB (line : List Nat) : List Nat := line.dropWhile (fun c => c ∈ PY_WS)

/-- The indentation measure of `encode_source_code_lines`:
`diff = len(line) - len(line.lstrip())`, plus 7 for every tab among the first
`diff` characters. -/
def indentOf (line : List Nat) : Nat :=
  let diff := line.length - (lstripB line).length
  diff + 7 * ((line.take diff).count 0x09)

/-- Big-endian bytes of `n`, `width` bytes wide (the payload layout of
`struct.pack` with `>I`, `>H`, `>B`). -/
def beBytes : Nat → Nat → List Nat
  | 0, _ => []
  | w + 1, n => (n / 2 ^ (8 * w)) % 256 :: beBytes w n

/-- `struct.pack` of one unsigned big-endian field of `width` bytes:
`struct.error` when the value is negative or does not fit. -/
def pack_u (width : Nat) (n : Int) : Except PyErr (List Nat) :=
  if 0 ≤ n ∧ n < (2 : Int) ^ (8 * width) then .ok (beBytes width n.toNat)
  else .error .structError

/-- The per-line body of `encode_source_code_lines`:
`struct.pack('>HBI', lineno, indent, len(data))` followed by the dedented
line `data`. -/
def encodeLine (acc : List Nat) (e : Int × List Nat) : Except PyErr (List Nat) :=
  let data := lstripB e.2
  match pack_u 2 e.1 with
  | .error er => .error er
  | .ok hb =>
    match pack_u 1 (indentOf e.2) with
    | .error er => .error er
    | .ok bb =>
      match pack_u 4 data.length with
      | .error er => .error er
      | .ok ib => .ok (acc ++ (hb ++ bb ++ ib) ++ data)

/-- The body of the per-file branch of `encode_source_code_lines` for a
string filename `fn`: a failing `struct.pack` propagates (nothing of the file
is emitted), otherwise the marker, the 4-byte length-prefixed filename, the
4-byte entry count and the lines are appended. -/
def encodeFileBody (acc : List Nat) (fn : List Nat) (lines : List (Int × List Nat)) :
    Except PyErr (List Nat) :=
  (pack_u 4 fn.length).bind (fun lb =>
    (pack_u 4 lines.length).bind (fun cb =>
      lines.foldlM encodeLine (acc ++ MARK_SOURCE_CODE :: (lb ++ fn ++ cb))))

/-- The per-file dispatch of `encode_source_code_lines`: `len(filename)` on a
non-string raises `TypeError`, a string filename is encoded by
`encodeFileBody`. -/
def encodeFile (acc : List Nat) : PyVal × List (Int × List Nat) → Except PyErr (List Nat)
  | (.i _, _) => .error .typeError
  | (.s fn, lines) => encodeFileBody acc fn lines

/-- `TraceForest.encode_source_code_lines()`: join the per-file encodings of
the accumulated `source_lines`. -/
def TraceForest.encode_source_code_lines (f : TraceForest) : Except PyErr (List Nat) :=
  f.source_lines.foldlM encodeFile []

/-- Specification-side run builder for `iter_ranges`, written from the
claim's words: a run `(start, end)` extends while the next (sorted) number is
within 50 of the run's start; a number exceeding that gap closes the run and
starts a new one. -/
def rangesSpecRun : Option (Int × Int) → List Int → List (Int × Int)
  | none, [] => []
  | some r, [] => [r]
  | none, n :: rest => rangesSpecRun (some (n, n)) rest
  | some (s, e), n :: rest =>
    if n - s ≤ 50 then rangesSpecRun (some (s, n)) rest
    else (s, e) :: rangesSpecRun (some (n, n)) rest

/-- Specification-side description of `iter_ranges` (the claim's words):
sort, then fold the numbers into gap-50 runs. -/
def rangesSpec (numbers : List Int) : List (Int × Int) :=
  rangesSpecRun none (List.insertionSort (fun a b => a ≤ b) numbers)

/-- Specification-side indentation measure (the claim's words): the count of
stripped leading whitespace characters, each literal tab contributing 7 extra
beyond its single character. -/
def specIndent (line : List Nat) : Nat :=
  (line.takeWhile (fun c => c ∈ PY_WS)).length
    + 7 * (line.takeWhile (fun c => c ∈ PY_WS)).count 0x09

/-- Specification-side layout of one line entry of the source-line wire
encoding (the claim's words): 2-byte big-endian line number, 1-byte
indentation measure, 4-byte big-endian content length, dedented content. -/
def encodeSpecLine (e : Int × List Nat) : List Nat :=
  let content := e.2.dropWhile (fun c => c ∈ PY_WS)
  beBytes 2 e.1.toNat ++ [specIndent e.2] ++ beBytes 4 content.length ++ content

/-- Specification-side layout of one file block (the claim's words): marker
byte, 4-byte big-endian filename length, filename, 4-byte big-endian entry
count, then the line entries. -/
def encodeSpecFile (e : PyVal × List (Int × List Nat)) : List Nat :=
  match e.1 with
  | .s fn =>
    MARK_SOURCE_CODE :: (beBytes 4 fn.length ++ fn
      ++ (beBytes 4 e.2.length ++ (e.2.map encodeSpecLine).flatten))
  | .i _ => []

/-- Specification-side layout of the whole encoding. -/
def encodeSpec (sl : List (PyVal × List (Int × List Nat))) : List Nat :=
  (sl.map encodeSpecFile).flatten

/-- A line entry fits the fixed-width fields of the wire encoding. -/
def lineOk (p : Int × List Nat) : Bool :=
  decide (0 ≤ p.1) && decide (p.1 < (2 : Int) ^ 16)
    && decide (indentOf p.2 < 2 ^ 8) && decide ((lstripB p.2).length < 2 ^ 32)

/-- A file entry fits the fixed-width fields of the wire encoding. -/
def fileOk (e : PyVal × List (Int × List Nat)) : Bool :=
  (match e.1 with
   | .s fn => decide (fn.length < 2 ^ 32)
   | .i _ => false)
    && decide (e.2.length < 2 ^ 32) && e.2.all lineOk

/-- Every accumulated entry fits the fixed-width fields of the wire
encoding. -/
def encodableB (sl : List (PyVal × List (Int × List Nat))) : Bool := sl.all fileOk

/-- The invariant of the extraction state: no file is opened twice, every
opened file is memoised, and only readable files are memoised. -/
def ExtractInv (fs : PyVal → Option (List (List Nat))) (st : ExtractSt) : Prop :=
  st.opens.Nodup
    ∧ (∀ fl ∈ st.opens, (alistGet fl st.file_contents).isSome)
    ∧ (∀ fl v, alistGet fl st.file_contents = some v → (fs fl).isSome)

theorem alistGet_set_self {κ β : Type} [DecidableEq κ] (k : κ) (v : β) (l : List (κ × β)) :
    alistGet k (alistSet k v l) = some v := by
  induction l with
  | nil => simp [alistGet, alistSet]
  | cons p rest ih =>
    obtain ⟨k2, v2⟩ := p
    by_cases h : k2 = k <;> simp [alistGet, alistSet, h, ih]

theorem alistGet_set_ne {κ β : Type} [DecidableEq κ] {k2 k : κ} (v : β) (l : List (κ × β))
    (h : k2 ≠ k) : alistGet k2 (alistSet k v l) = alistGet k2 l := by
  induction l with
  | nil => simp [alistGet, alistSet]; exact fun hh => h hh.symm
  | cons p rest ih =>
    obtain ⟨k3, v3⟩ := p
    by_cases h3 : k3 = k <;> by_cases h4 : k3 = k2 <;>
      simp_all [alistGet, alistSet]

theorem alistSet_set_self {κ β : Type} [DecidableEq κ] (k : κ) (v1 v2 : β) (l : List (κ × β)) :
    alistSet k v2 (alistSet k v1 l) = alistSet k v2 l := by
  induction l with
  | nil => simp [alistSet]
  | cons p rest ih =>
    obtain ⟨k3, v3⟩ := p
    by_cases h : k3 = k <;> simp [alistSet, h, ih]

theorem iter_ranges_go_spec : ∀ (l : List Int) (first la : Int),
    iter_ranges_go first la l = rangesSpecRun (some (first, la)) l := by
  intro l
  induction l with
  | nil => intro fi la; rfl
  | cons i rest ih =>
    intro fi la
    by_cases h : i - fi > 50
    · have h2 : ¬ (i - fi ≤ 50) := by omega
      simp [iter_ranges_go, rangesSpecRun, h, h2, ih]
    · have h2 : i - fi ≤ 50 := by omega
      simp [iter_ranges_go, rangesSpecRun, h, h2, ih]

/-- C5: `iter_ranges` sorts its input and yields the closed gap-50 runs of
the claim (`rangesSpec`, written from the spec's words); on
`[1, 2, 3, 60, 61, 200]` it yields exactly `[1,3]`, `[60,61]`, `[200,200]`;
on empty input it yields nothing and raises no error. -/
theorem iter_ranges_spec_C5 :
    (∀ numbers : List Int, iter_ranges numbers = rangesSpec numbers)
    ∧ iter_ranges [1, 2, 3, 60, 61, 200] = [(1, 3), (60, 61), (200, 200)]
    ∧ iter_ranges [] = [] := by
  refine ⟨?_, by decide, rfl⟩
  intro numbers
  unfold iter_ranges rangesSpec
  cases List.insertionSort (fun a b => a ≤ b) numbers with
  | nil => rfl
  | cons n rest => exact iter_ranges_go_spec rest n n

/-- The single assembly operation of the C1 scenario: capture `b"AAAAAAAA"`
at relative offset 0. -/
def c1op : FlatOp :=
  { opnum := 0, opname := "load", args := [], result := none, descr := none,
    descr_number := none, core_dump := some (0, [65, 65, 65, 65, 65, 65, 65, 65]) }

/-- C1 (code bug): with capture `b"AAAAAAAA"` at offset 0, base address 1000
and the patch `(time 5, addr 1002, b"XX")`, `FlatOp.get_core_dump` at any
time `>= 5` returns the 7-byte `b"AAXAAAA"` — the overlay drops the patch's
last byte and shrinks the buffer (`content_end = len(content) - 1`) — not the
`b"AAXXAAAA"` the claim states; the query at time 4 is unchanged, as
claimed. -/
theorem flatop_get_core_dump_patch_slip_C1 :
    FlatOp.get_core_dump c1op 1000 [(5, 1002, [88, 88])] 5 = .ok [65, 65, 88, 65, 65, 65, 65]
    ∧ FlatOp.get_core_dump c1op 1000 [(5, 1002, [88, 88])] 7 = .ok [65, 65, 88, 65, 65, 65, 65]
    ∧ FlatOp.get_core_dump c1op 1000 [(5, 1002, [88, 88])] 4
        = .ok [65, 65, 65, 65, 65, 65, 65, 65]
    ∧ FlatOp.get_core_dump c1op 1000 [(5, 1002, [88, 88])] 5
        ≠ .ok [65, 65, 88, 88, 65, 65, 65, 65] := by
  refine ⟨by decide, by decide, by decide, by decide⟩

/-- An assembly operation with a one-byte capture, for the C2 scenario. -/
def c2op (b : Nat) : FlatOp :=
  { opnum := 0, opname := "load", args := [], result := none, descr := none,
    descr_number := none, core_dump := some (0, [b]) }

/-- The C2 trace: an assembly stage of three operations whose captures are
`[65]`, `[66]`, `[67]`, in a forest with no patches. -/
def c2trace : Trace :=
  { trace_type := "loop", unique_id := 0, inputargs := [],
    stages := [("asm", { mark := "asm", ops := [.flat (c2op 65), .flat (c2op 66), .flat (c2op 67)],
                         timeval := 0 })],
    last_mark := some "asm", addrs := (1000, 1100), my_patches := none, bridges := [],
    descr_numbers := [], counter := 0, merge_point_files := [] }

def c2forest : TraceForest :=
  { version := 1, traces := [(0, c2trace)], addrs := [], timepos := 0, patches := [],
    source_lines := [] }

/-- C2 (code bug): with no patches and the full-slice request
`opslice = (0, -1)`, `Trace.get_core_dump` returns only the first two
captures concatenated — `end = len(opslice)` measures the `opslice` pair
itself (always 2) instead of the operation list — while the explicit slice
`(0, 3)` does return the full concatenation the claim describes. -/
theorem trace_get_core_dump_slice_slip_C2 :
    Trace.get_core_dump c2forest c2trace (-1) (0, -1) = .ok (some [65, 66])
    ∧ Trace.get_core_dump c2forest c2trace (-1) (0, -1) ≠ .ok (some [65, 66, 67])
    ∧ Trace.get_core_dump c2forest c2trace (-1) (0, 3) = .ok (some [65, 66, 67]) := by
  refine ⟨by decide, by decide, by decide⟩

/-- The C3 trace: aborted before any stage was marked. -/
def c3trace : Trace :=
  { trace_type := "loop", unique_id := 13, inputargs := [], stages := [],
    last_mark := none, addrs := (-1, -1), my_patches := none, bridges := [],
    descr_numbers := [], counter := 0, merge_point_files := [] }

def c3forest : TraceForest :=
  { version := 1, traces := [(13, c3trace)], addrs := [], timepos := 0, patches := [],
    source_lines := [] }

/-- C3 (code bug): for a trace with no assembly stage, `Trace.get_core_dump`
raises `KeyError` — `get_stage` indexes `self.stages['asm']` directly, so the
`if not stage: return None` branch (the "no core dump available" result the
claim and the source's own comment describe) is unreachable. -/
theorem trace_get_core_dump_no_asm_raises_C3 :
    Trace.get_core_dump c3forest c3trace (-1) (0, -1) = .error .keyError
    ∧ Trace.get_core_dump c3forest c3trace (-1) (0, -1) ≠ .ok none := by
  refine ⟨by decide, by decide⟩

theorem stitch_go_none (tp : Nat) (d : Nat) (a : Int) :
    ∀ l : List (Nat × Trace), (∀ p ∈ l, some d ∉ p.2.descr_numbers) →
      stitch_go tp d a l = none := by
  intro l
  induction l with
  | nil => intro _; rfl
  | cons p rest ih =>
    intro h
    obtain ⟨tid, tr⟩ := p
    have h1 : some d ∉ tr.descr_numbers := h (tid, tr) (List.mem_cons_self _ _)
    have h2 := ih (fun q hq => h q (List.mem_cons_of_mem _ hq))
    simp [stitch_go, h1, h2]

theorem stitch_go_found (tp : Nat) (d : Nat) (a : Int) (tid : Nat) (tr : Trace)
    (l2 : List (Nat × Trace)) (hown : some d ∈ tr.descr_numbers) :
    ∀ l1 : List (Nat × Trace), (∀ p ∈ l1, some d ∉ p.2.descr_numbers) →
      stitch_go tp d a (l1 ++ (tid, tr) :: l2)
        = some (l1 ++ (tid, tr.stitch_bridge tp d a) :: l2) := by
  intro l1
  induction l1 with
  | nil => intro _; simp [stitch_go, hown]
  | cons q rest ih =>
    intro h
    obtain ⟨qid, qtr⟩ := q
    have h1 : some d ∉ qtr.descr_numbers := h (qid, qtr) (List.mem_cons_self _ _)
    have h2 := ih (fun p hp => h p (List.mem_cons_of_mem _ hp))
    simp [stitch_go, h1, h2]

/-- C4: `TraceForest.stitch_bridge` with a descriptor registered by exactly
one trace appends the single bridge record
`(timepos, descr_number, addr_to)` to that trace, leaving every other trace
untouched; with a descriptor registered by no trace it raises
`NotImplementedError` instead of silently dropping the event. -/
theorem forest_stitch_bridge_unique_owner_C4 :
    (∀ (f : TraceForest) (d : Nat) (a : Int),
        (∀ p ∈ f.traces, some d ∉ p.2.descr_numbers) →
        TraceForest.stitch_bridge f d a = .error .notImplementedError)
    ∧ (∀ (f : TraceForest) (d : Nat) (a : Int) (l1 l2 : List (Nat × Trace))
          (tid : Nat) (tr : Trace),
        f.traces = l1 ++ (tid, tr) :: l2 →
        some d ∈ tr.descr_numbers →
        (∀ p ∈ l1 ++ l2, some d ∉ p.2.descr_numbers) →
        TraceForest.stitch_bridge f d a =
          .ok { f with traces := l1 ++ (tid, Trace.stitch_bridge tr f.timepos d a) :: l2 }) := by
  constructor
  · intro f d a h
    unfold TraceForest.stitch_bridge
    rw [stitch_go_none f.timepos d a f.traces h]
  · intro f d a l1 l2 tid tr htr hown hothers
    unfold TraceForest.stitch_bridge
    rw [htr, stitch_go_found f.timepos d a tid tr l2 hown l1
      (fun p hp => hothers p (List.mem_append_left _ hp))]

/-- The C4 scenario: a single loop trace owning descriptor 7. -/
def c4trace : Trace :=
  { trace_type := "loop", unique_id := 0, inputargs := [], stages := [],
    last_mark := none, addrs := (-1, -1), my_patches := none, bridges := [],
    descr_numbers := [some 7], counter := 0, merge_point_files := [] }

def c4forest : TraceForest :=
  { version := 1, traces := [(0, c4trace)], addrs := [], timepos := 3, patches := [],
    source_lines := [] }

def c4empty : TraceForest :=
  { version := 1, traces := [], addrs := [], timepos := 3, patches := [], source_lines := [] }

theorem forest_stitch_bridge_unique_owner_C4_witness :
    TraceForest.stitch_bridge c4empty 7 99 = .error .notImplementedError
    ∧ TraceForest.stitch_bridge c4forest 7 99 =
        .ok { c4forest with
              traces := [] ++ (0, Trace.stitch_bridge c4trace c4forest.timepos 7 99) :: [] } :=
  ⟨forest_stitch_bridge_unique_owner_C4.1 c4empty 7 99 (by simp [c4empty]),
   forest_stitch_bridge_unique_owner_C4.2 c4forest 7 99 [] [] 0 c4trace rfl
     (by simp [c4trace]) (by simp)⟩

theorem except_bind_ok {ε α β : Type} (a : α) (g : α → Except ε β) :
    (Except.ok a : Except ε α).bind g = g a := rfl

/-- `Trace.add_instr` on a `FlatOp` with a current stage: the op is appended
to that stage, and `descr_numbers` gains `op.descr_number` exactly when
`op.has_descr()` holds. -/
theorem add_instr_flat_eq (t : Trace) (op : FlatOp) (mname : String) (st : Stage)
    (hm : t.last_mark = some mname) (hs : alistGet mname t.stages = some st) :
    Trace.add_instr t (.flat op) =
      .ok { t with
            descr_numbers :=
              if FlatOp.has_descr op none then setAdd t.descr_numbers op.descr_number
              else t.descr_numbers,
            stages := alistSet mname { st with ops := st.ops ++ [Op.flat op] } t.stages } := by
  by_cases h : FlatOp.has_descr op none <;>
    simp [Trace.add_instr, Op.has_descr, Op.descr_number, h, hm, hs]

theorem mark_trace_ne_opt : MARK_TRACE ≠ MARK_TRACE_OPT := by decide

theorem mark_trace_ne_asm : MARK_TRACE ≠ MARK_TRACE_ASM := by decide

theorem start_mark_noopt_noop (f : TraceForest) (t : Trace)
    (h : t.last_mark = some "noopt") : Trace.start_mark f t MARK_TRACE = .ok t := by
  simp [Trace.start_mark, mark_trace_ne_opt, mark_trace_ne_asm, h]

theorem start_mark_noopt_fresh (f : TraceForest) (t : Trace)
    (h : t.last_mark ≠ some "noopt") :
    Trace.start_mark f t MARK_TRACE =
      .ok { t with last_mark := some "noopt",
                   stages := alistSet "noopt" ⟨"noopt", [], f.timepos⟩ t.stages } := by
  simp [Trace.start_mark, mark_trace_ne_opt, mark_trace_ne_asm, h]

/-- C6: a second consecutive "unoptimized" marker is a no-op (first
conjunct); any other marker transition installs a fresh empty stage stamped
with the forest's current logical time (second conjunct); and the
mark/add/mark/add scenario leaves a single "noopt" stage holding both
operations in insertion order, all other stages untouched (third
conjunct). -/
theorem start_mark_unrolling_C6 :
    (∀ (f : TraceForest) (t : Trace), t.last_mark = some "noopt" →
        Trace.start_mark f t MARK_TRACE = .ok t)
    ∧ (∀ (f : TraceForest) (t : Trace) (mark : Char) (name : String),
        ((mark = MARK_TRACE_OPT ∧ name = "opt") ∨ (mark = MARK_TRACE_ASM ∧ name = "asm")
          ∨ (mark = MARK_TRACE ∧ t.last_mark ≠ some "noopt" ∧ name = "noopt")) →
        Trace.start_mark f t mark =
          .ok { t with last_mark := some name,
                       stages := alistSet name ⟨name, [], f.timepos⟩ t.stages })
    ∧ (∀ (f : TraceForest) (t : Trace) (o1 o2 : FlatOp), t.last_mark ≠ some "noopt" →
        ∃ t4,
          (Trace.start_mark f t MARK_TRACE).bind (fun t1 =>
            (Trace.add_instr t1 (.flat o1)).bind (fun t2 =>
              (Trace.start_mark f t2 MARK_TRACE).bind (fun t3 =>
                Trace.add_instr t3 (.flat o2)))) = .ok t4
          ∧ alistGet "noopt" t4.stages
              = some ⟨"noopt", [Op.flat o1, Op.flat o2], f.timepos⟩
          ∧ t4.last_mark = some "noopt"
          ∧ ∀ k, k ≠ "noopt" → alistGet k t4.stages = alistGet k t.stages) := by
  refine ⟨start_mark_noopt_noop, ?_, ?_⟩
  · intro f t mark name h
    rcases h with ⟨h1, h2⟩ | ⟨h1, h2⟩ | ⟨h1, h2, h3⟩
    · subst h1; subst h2; simp [Trace.start_mark]
    · subst h1; subst h2
      simp [Trace.start_mark, (by decide : MARK_TRACE_ASM ≠ MARK_TRACE_OPT)]
    · subst h1; subst h3; exact start_mark_noopt_fresh f t h2
  · intro f t o1 o2 hlm
    have h1 := start_mark_noopt_fresh f t hlm
    have h2 := add_instr_flat_eq
      { t with last_mark := some "noopt",
               stages := alistSet "noopt" ⟨"noopt", [], f.timepos⟩ t.stages }
      o1 "noopt" ⟨"noopt", [], f.timepos⟩ rfl (alistGet_set_self _ _ _)
    rw [h1, except_bind_ok, h2, except_bind_ok]
    rw [start_mark_noopt_noop f _ rfl, except_bind_ok]
    rw [add_instr_flat_eq _ o2 "noopt" ⟨"noopt", [Op.flat o1], f.timepos⟩ rfl
      (alistGet_set_self _ _ _)]
    refine ⟨_, rfl, ?_, rfl, ?_⟩
    · exact alistGet_set_self _ _ _
    · intro k hk
      rw [alistGet_set_ne _ _ hk, alistGet_set_ne _ _ hk, alistGet_set_ne _ _ hk]

/-- A trace that never received a "noopt" marker, for the C6 witness. -/
def c6fresh : Trace :=
  { trace_type := "loop", unique_id := 5, inputargs := [], stages := [],
    last_mark := none, addrs := (-1, -1), my_patches := none, bridges := [],
    descr_numbers := [], counter := 0, merge_point_files := [] }

/-- A trace whose current phase is already "noopt", for the C6 witness. -/
def c6noopt : Trace :=
  { c6fresh with stages := [("noopt", { mark := "noopt", ops := [], timeval := 2 })],
                 last_mark := some "noopt" }

def c6forest : TraceForest :=
  { version := 1, traces := [], addrs := [], timepos := 2, patches := [], source_lines := [] }

def c6op1 : FlatOp :=
  { opnum := 1, opname := "int_add", args := ["i0", "i1"], result := some "i2",
    descr := none, descr_number := none, core_dump := none }

def c6op2 : FlatOp :=
  { opnum := 2, opname := "int_mul", args := ["i2", "i2"], result := some "i3",
    descr := none, descr_number := none, core_dump := none }

theorem start_mark_unrolling_C6_witness :
    Trace.start_mark c6forest c6noopt MARK_TRACE = .ok c6noopt
    ∧ Trace.start_mark c6forest c6fresh MARK_TRACE_OPT =
        .ok { c6fresh with last_mark := some "opt",
                           stages := alistSet "opt" ⟨"opt", [], c6forest.timepos⟩ c6fresh.stages }
    ∧ ∃ t4,
        (Trace.start_mark c6forest c6fresh MARK_TRACE).bind (fun t1 =>
          (Trace.add_instr t1 (.flat c6op1)).bind (fun t2 =>
            (Trace.start_mark c6forest t2 MARK_TRACE).bind (fun t3 =>
              Trace.add_instr t3 (.flat c6op2)))) = .ok t4
        ∧ alistGet "noopt" t4.stages
            = some ⟨"noopt", [Op.flat c6op1, Op.flat c6op2], c6forest.timepos⟩
        ∧ t4.last_mark = some "noopt"
        ∧ ∀ k, k ≠ "noopt" → alistGet k t4.stages = alistGet k c6fresh.stages :=
  ⟨start_mark_unrolling_C6.1 c6forest c6noopt rfl,
   start_mark_unrolling_C6.2.1 c6forest c6fresh MARK_TRACE_OPT "opt" (Or.inl ⟨rfl, rfl⟩),
   start_mark_unrolling_C6.2.2 c6forest c6fresh c6op1 c6op2 (by decide)⟩

/-- The C7 counterexample trace: an open "noopt" stage ready to receive
operations. -/
def c7trace : Trace :=
  { trace_type := "loop", unique_id := 1, inputargs := [],
    stages := [("noopt", { mark := "noopt", ops := [], timeval := 0 })],
    last_mark := some "noopt", addrs := (-1, -1), my_patches := none, bridges := [],
    descr_numbers := [], counter := 0, merge_point_files := [] }

/-- An operation carrying a descriptor number but no symbolic descriptor. -/
def c7op : FlatOp :=
  { opnum := 3, opname := "guard_true", args := ["i0"], result := none,
    descr := none, descr_number := some 42, core_dump := none }

/-- C7 counterexample: `add_instr` of an op whose `descr_number` is set (42)
but whose `descr` is `None` succeeds yet registers nothing —
`op.has_descr()` tests `self.descr`, not `self.descr_number` — refuting the
claim that a set `descr_number` is always registered. -/
theorem add_instr_descr_number_counterexample_C7 :
    (Trace.add_instr c7trace (.flat c7op)).map Trace.descr_numbers = .ok []
    ∧ c7op.descr_number = some 42 := by
  refine ⟨by decide, rfl⟩

/-- C7 (amended): `add_instr` of a `FlatOp` with a current stage appends the
op to that stage, and registers `op.descr_number` in `descr_numbers` exactly
when the op carries a symbolic descriptor (`op.descr` is set) — an op with a
`descr_number` but no `descr` is not registered. -/
theorem add_instr_descr_registration_C7 (t : Trace) (op : FlatOp) (mname : String)
    (st : Stage) (hm : t.last_mark = some mname) (hs : alistGet mname t.stages = some st) :
    Trace.add_instr t (.flat op) =
      .ok { t with
            descr_numbers :=
              if op.descr.isSome then setAdd t.descr_numbers op.descr_number
              else t.descr_numbers,
            stages := alistSet mname { st with ops := st.ops ++ [Op.flat op] } t.stages } :=
  add_instr_flat_eq t op mname st hm hs

/-- An operation carrying both a symbolic descriptor and a descriptor
number. -/
def c7op2 : FlatOp :=
  { opnum := 4, opname := "label", args := [], result := none,
    descr := some "TargetToken(140)", descr_number := some 7, core_dump := none }

theorem add_instr_descr_registration_C7_witness :
    Trace.add_instr c7trace (.flat c7op2) =
      .ok { c7trace with
            descr_numbers :=
              if c7op2.descr.isSome then setAdd c7trace.descr_numbers c7op2.descr_number
              else c7trace.descr_numbers,
            stages := alistSet "noopt"
              { mark := "noopt", ops := [] ++ [Op.flat c7op2], timeval := 0 }
              c7trace.stages } :=
  add_instr_descr_registration_C7 c7trace c7op2 "noopt"
    { mark := "noopt", ops := [], timeval := 0 } rfl (by decide)

/-- C10: once a trace's address bounds are set (via the spec-modelled
registration that the decoder performs), the forest's address index maps the
trace's address to the trace with those bounds, so `get_trace_by_addr`
returns it; for any address not in the index, `get_trace_by_addr` returns
`none` rather than failing. -/
theorem addr_index_lookup_C10 :
    (∀ (f : TraceForest) (uid : Nat) (a b : Int) (t : Trace),
        alistGet uid f.traces = some t →
        TraceForest.get_trace_by_addr (f.register_addr_bounds uid a b) a
          = some (t.set_addr_bounds a b))
    ∧ (∀ (f : TraceForest) (addr : Int),
        alistGet addr f.addrs = none → TraceForest.get_trace_by_addr f addr = none) := by
  constructor
  · intro f uid a b t h
    unfold TraceForest.register_addr_bounds
    rw [h]
    exact alistGet_set_self _ _ _
  · intro f addr h
    exact h

/-- The C10 scenario: one registered trace, bounds not yet set. -/
def c10trace : Trace :=
  { trace_type := "bridge", unique_id := 8, inputargs := [], stages := [],
    last_mark := none, addrs := (-1, -1), my_patches := none, bridges := [],
    descr_numbers := [], counter := 0, merge_point_files := [] }

def c10forest : TraceForest :=
  { version := 1, traces := [(8, c10trace)], addrs := [], timepos := 0, patches := [],
    source_lines := [] }

theorem addr_index_lookup_C10_witness :
    TraceForest.get_trace_by_addr (c10forest.register_addr_bounds 8 4096 4223) 4096
      = some (c10trace.set_addr_bounds 4096 4223)
    ∧ TraceForest.get_trace_by_addr c10forest 4096 = none :=
  ⟨addr_index_lookup_C10.1 c10forest 8 4096 4223 c10trace (by decide),
   addr_index_lookup_C10.2 c10forest 4096 rfl⟩

theorem foldlM_except_nil {ε σ α : Type} (g : σ → α → Except ε σ) (s : σ) :
    List.foldlM g s ([] : List α) = .ok s := rfl

theorem foldlM_except_cons {ε σ α : Type} (g : σ → α → Except ε σ) (s : σ) (a : α)
    (l : List α) :
    List.foldlM g s (a :: l) = (g s a).bind (fun s2 => List.foldlM g s2 l) := by
  rw [List.foldlM_cons]
  rcases g s a with e | v <;> rfl

theorem except_bind_err {ε α β : Type} (e : ε) (g : α → Except ε β) :
    (Except.error e : Except ε α).bind g = .error e := rfl

theorem length_sub_dropWhile {α : Type} (p : α → Bool) (l : List α) :
    l.length - (l.dropWhile p).length = (l.takeWhile p).length := by
  have h := congrArg List.length (List.takeWhile_append_dropWhile (p := p) (l := l))
  simp only [List.length_append] at h
  omega

theorem take_sub_dropWhile {α : Type} (p : α → Bool) :
    ∀ l : List α, l.take (l.length - (l.dropWhile p).length) = l.takeWhile p := by
  intro l
  induction l with
  | nil => rfl
  | cons a tl ih =>
    by_cases h : p a
    · have hle : (List.dropWhile p tl).length ≤ tl.length := by
        have h2 := congrArg List.length (List.takeWhile_append_dropWhile (p := p) (l := tl))
        simp only [List.length_append] at h2
        omega
      have heq : (a :: tl).length - (List.dropWhile p (a :: tl)).length
          = (tl.length - (List.dropWhile p tl).length) + 1 := by
        simp only [List.dropWhile_cons, h, if_true, List.length_cons]
        omega
      rw [heq]
      simp [List.takeWhile_cons, h, ih]
    · simp [List.dropWhile_cons, List.takeWhile_cons, h]

theorem indentOf_eq_specIndent (line : List Nat) : indentOf line = specIndent line := by
  show (line.length - (lstripB line).length)
        + 7 * ((line.take (line.length - (lstripB line).length)).count 0x09)
      = specIndent line
  unfold specIndent lstripB
  rw [take_sub_dropWhile, length_sub_dropWhile]

theorem pack_u_nat (w m : Nat) (h : m < 2 ^ (8 * w)) :
    pack_u w (m : Int) = .ok (beBytes w m) := by
  unfold pack_u
  rw [if_pos]
  · simp
  · exact ⟨Int.natCast_nonneg m, by exact_mod_cast h⟩

theorem encodeLine_eq_ok (acc : List Nat) (e : Int × List Nat) (hb bb ib : List Nat)
    (q1 : pack_u 2 e.1 = .ok hb) (q2 : pack_u 1 (indentOf e.2) = .ok bb)
    (q3 : pack_u 4 (lstripB e.2).length = .ok ib) :
    encodeLine acc e = .ok (acc ++ (hb ++ bb ++ ib) ++ lstripB e.2) := by
  simp only [encodeLine]
  rw [q1, q2, q3]

theorem encodeLine_ok (acc : List Nat) (e : Int × List Nat) (h : lineOk e = true) :
    encodeLine acc e = .ok (acc ++ encodeSpecLine e) := by
  simp only [lineOk, Bool.and_eq_true, decide_eq_true_eq] at h
  obtain ⟨⟨⟨h1, h2⟩, h3⟩, h4⟩ := h
  have p1 : pack_u 2 e.1 = .ok (beBytes 2 e.1.toNat) := by
    unfold pack_u
    rw [if_pos ⟨h1, by exact_mod_cast h2⟩]
  have p2 := pack_u_nat 1 (indentOf e.2) h3
  have p3 := pack_u_nat 4 (lstripB e.2).length h4
  rw [encodeLine_eq_ok acc e _ _ _ p1 p2 p3]
  have h3b : indentOf e.2 < 256 := by norm_num at h3; exact h3
  have hb1 : beBytes 1 (indentOf e.2) = [specIndent e.2] := by
    rw [← indentOf_eq_specIndent]
    simp [beBytes, Nat.mod_eq_of_lt h3b]
  rw [hb1]
  simp only [encodeSpecLine]
  simp [lstripB, List.append_assoc]

theorem encodeLines_ok :
    ∀ (lines : List (Int × List Nat)) (acc : List Nat), lines.all lineOk = true →
      lines.foldlM encodeLine acc = .ok (acc ++ (lines.map encodeSpecLine).flatten) := by
  intro lines
  induction lines with
  | nil => intro acc _; simp only [List.map_nil, List.flatten_nil, List.append_nil]; rfl
  | cons e rest ih =>
    intro acc h
    simp only [List.all_cons, Bool.and_eq_true] at h
    rw [foldlM_except_cons, encodeLine_ok acc e h.1, except_bind_ok, ih _ h.2]
    simp [List.append_assoc]

theorem encodeFile_eq_ok (acc : List Nat) (fn : List Nat) (lines : List (Int × List Nat))
    (lb cb : List Nat) (q1 : pack_u 4 fn.length = .ok lb)
    (q2 : pack_u 4 lines.length = .ok cb) :
    encodeFile acc (.s fn, lines)
      = lines.foldlM encodeLine (acc ++ MARK_SOURCE_CODE :: (lb ++ fn ++ cb)) := by
  show encodeFileBody acc fn lines
      = lines.foldlM encodeLine (acc ++ MARK_SOURCE_CODE :: (lb ++ fn ++ cb))
  unfold encodeFileBody
  rw [q1, except_bind_ok, q2, except_bind_ok]

theorem encodeFile_ok (acc : List Nat) (e : PyVal × List (Int × List Nat))
    (h : fileOk e = true) : encodeFile acc e = .ok (acc ++ encodeSpecFile e) := by
  obtain ⟨fv, lines⟩ := e
  cases fv with
  | i v => simp [fileOk] at h
  | s fn =>
    simp only [fileOk, Bool.and_eq_true, decide_eq_true_eq] at h
    obtain ⟨⟨hfn, hcnt⟩, hall⟩ := h
    rw [encodeFile_eq_ok acc fn lines _ _ (pack_u_nat 4 fn.length hfn)
      (pack_u_nat 4 lines.length hcnt)]
    rw [encodeLines_ok lines _ hall]
    simp only [encodeSpecFile]
    simp [List.append_assoc]

theorem encodeFiles_ok :
    ∀ (sl : List (PyVal × List (Int × List Nat))) (acc : List Nat), encodableB sl = true →
      sl.foldlM encodeFile acc = .ok (acc ++ encodeSpec sl) := by
  intro sl
  induction sl with
  | nil =>
    intro acc _
    simp only [encodeSpec, List.map_nil, List.flatten_nil, List.append_nil]
    rfl
  | cons e rest ih =>
    intro acc h
    simp only [encodableB, List.all_cons, Bool.and_eq_true] at h
    rw [foldlM_except_cons, encodeFile_ok acc e h.1, except_bind_ok, ih _ h.2]
    simp [encodeSpec, List.append_assoc]

/-- C9: whenever every accumulated entry fits the fixed-width `struct.pack`
fields, `encode_source_code_lines` produces exactly the byte layout of the
claim (`encodeSpec`): per file a source-code marker byte, 4-byte big-endian
filename length, the filename, a 4-byte big-endian entry count, then per line
a 2-byte big-endian line number, a 1-byte indentation measure (stripped
leading whitespace count, each tab adding 7), a 4-byte big-endian length and
the dedented content. -/
theorem encode_source_code_lines_layout_C9 (f : TraceForest)
    (h : encodableB f.source_lines = true) :
    TraceForest.encode_source_code_lines f = .ok (encodeSpec f.source_lines) := by
  unfold TraceForest.encode_source_code_lines
  rw [encodeFiles_ok f.source_lines [] h]
  rw [List.nil_append]

/-- The C9 witness data: file "a.py" with line 12 reading `"\t x=1"` (one
tab, one space, then the content). -/
def c9sl : List (PyVal × List (Int × List Nat)) :=
  [(.s [97, 46, 112, 121], [(12, [9, 32, 120, 61, 49])])]

def c9forest : TraceForest :=
  { version := 1, traces := [], addrs := [], timepos := 0, patches := [],
    source_lines := c9sl }

theorem encode_source_code_lines_layout_C9_witness :
    encodableB c9sl = true
    ∧ TraceForest.encode_source_code_lines c9forest = .ok (encodeSpec c9sl) :=
  ⟨by decide, encode_source_code_lines_layout_C9 c9forest (by decide)⟩

theorem extractOneRest_state (st1 : ExtractSt) (file : PyVal) (lines : List PyVal)
    (c : List (List Nat)) :
    (extractOneRest st1 file lines c).1.opens = st1.opens
      ∧ (extractOneRest st1 file lines c).1.file_contents = st1.file_contents := by
  unfold extractOneRest
  cases lines.mapM pyInt with
  | error e => exact ⟨rfl, rfl⟩
  | ok linesI => exact ⟨rfl, rfl⟩

theorem extractOne_inv (fs : PyVal → Option (List (List Nat))) (st : ExtractSt)
    (file : PyVal) (lines : List PyVal) (hInv : ExtractInv fs st) :
    ExtractInv fs (extractOne fs st file lines).1 := by
  unfold extractOne
  cases hg : alistGet file st.file_contents with
  | some c =>
    obtain ⟨ho, hc⟩ := extractOneRest_state st file lines c
    refine ⟨?_, ?_, ?_⟩
    · rw [ho]; exact hInv.1
    · intro fl hm
      rw [hc]
      rw [ho] at hm
      exact hInv.2.1 fl hm
    · intro fl v hv
      rw [hc] at hv
      exact hInv.2.2 fl v hv
  | none =>
    cases hf : fs file with
    | none => exact hInv
    | some data =>
      obtain ⟨ho, hc⟩ := extractOneRest_state
        { st with file_contents := alistSet file data st.file_contents,
                  opens := st.opens ++ [file] } file lines data
      have hnotin : file ∉ st.opens := by
        intro hmem
        have hsome := hInv.2.1 file hmem
        rw [hg] at hsome
        simp at hsome
      refine ⟨?_, ?_, ?_⟩
      · rw [ho]
        simp only [List.nodup_append, List.nodup_cons, List.not_mem_nil, not_false_iff,
          List.nodup_nil, and_true, true_and]
        refine ⟨hInv.1, ?_⟩
        intro x hx
        simp only [List.mem_singleton]
        intro hxx
        exact hnotin (hxx ▸ hx)
      · intro fl hm
        rw [hc]
        rw [ho] at hm
        rcases List.mem_append.mp hm with hm1 | hm2
        · by_cases hfl : fl = file
          · subst hfl
            rw [alistGet_set_self]
            rfl
          · rw [alistGet_set_ne _ _ hfl]
            exact hInv.2.1 fl hm1
        · have hfl : fl = file := by simpa using hm2
          subst hfl
          rw [alistGet_set_self]
          rfl
      · intro fl v hv
        rw [hc] at hv
        by_cases hfl : fl = file
        · subst hfl
          rw [hf]
          rfl
        · rw [alistGet_set_ne _ _ hfl] at hv
          exact hInv.2.2 fl v hv

theorem extractOne_unreadable (fs : PyVal → Option (List (List Nat))) (st : ExtractSt)
    (file : PyVal) (lines : List PyVal) (hInv : ExtractInv fs st) (hf : fs file = none) :
    extractOne fs st file lines = (st, some PyErr.ioError) := by
  unfold extractOne
  cases hg : alistGet file st.file_contents with
  | none => rw [hf]
  | some c =>
    exfalso
    have hsome := hInv.2.2 file c hg
    rw [hf] at hsome
    simp at hsome

theorem extractPairs_inv (fs : PyVal → Option (List (List Nat))) :
    ∀ (ql : List (PyVal × List PyVal)) (st : ExtractSt), ExtractInv fs st →
      ExtractInv fs (extractPairs fs st ql).1 := by
  intro ql
  induction ql with
  | nil => intro st hInv; exact hInv
  | cons q rest ih =>
    intro st hInv
    have h1 := extractOne_inv fs st q.1 q.2 hInv
    simp only [extractPairs]
    cases (extractOne fs st q.1 q.2).2 with
    | none => exact ih _ h1
    | some e => exact h1

theorem extractPairs_bad (fs : PyVal → Option (List (List Nat))) :
    ∀ (ql : List (PyVal × List PyVal)) (st : ExtractSt), ExtractInv fs st →
      (∃ q ∈ ql, fs q.1 = none) →
      ∃ e, (extractPairs fs st ql).2 = some e := by
  intro ql
  induction ql with
  | nil =>
    intro st _ hex
    simp at hex
  | cons q rest ih =>
    intro st hInv hex
    simp only [extractPairs]
    by_cases hq : fs q.1 = none
    · rw [extractOne_unreadable fs st q.1 q.2 hInv hq]
      exact ⟨.ioError, rfl⟩
    · cases h2 : (extractOne fs st q.1 q.2).2 with
      | some e => exact ⟨e, rfl⟩
      | none =>
        rcases hex with ⟨q2, hq2mem, hq2⟩
        rcases List.mem_cons.mp hq2mem with hq2eq | hq2rest
        · exact absurd (hq2eq ▸ hq2) hq
        · exact ih _ (extractOne_inv fs st q.1 q.2 hInv) ⟨q2, hq2rest, hq2⟩

theorem extractTraces_inv (fs : PyVal → Option (List (List Nat))) :
    ∀ (l : List (Nat × Trace)) (st : ExtractSt), ExtractInv fs st →
      ExtractInv fs (extractTraces fs st l).1 := by
  intro l
  induction l with
  | nil => intro st hInv; exact hInv
  | cons p rest ih =>
    intro st hInv
    have h1 := extractPairs_inv fs p.2.merge_point_files st hInv
    simp only [extractTraces]
    cases (extractTrace fs st p).2 with
    | none => exact ih _ h1
    | some e => exact h1

theorem extractTraces_bad (fs : PyVal → Option (List (List Nat))) :
    ∀ (l : List (Nat × Trace)) (st : ExtractSt), ExtractInv fs st →
      (∃ p ∈ l, ∃ q ∈ p.2.merge_point_files, fs q.1 = none) →
      ∃ e, (extractTraces fs st l).2 = some e := by
  intro l
  induction l with
  | nil =>
    intro st _ hex
    simp at hex
  | cons p rest ih =>
    intro st hInv hex
    simp only [extractTraces]
    rcases hex with ⟨p2, hp2mem, hp2⟩
    rcases List.mem_cons.mp hp2mem with hp2eq | hp2rest
    · obtain ⟨e, he⟩ := extractPairs_bad fs p.2.merge_point_files st hInv (hp2eq ▸ hp2)
      rw [show (extractTrace fs st p).2 = some e from he]
      exact ⟨e, rfl⟩
    · cases h2 : (extractTrace fs st p).2 with
      | some e => exact ⟨e, rfl⟩
      | none =>
        exact ih _ (extractPairs_inv fs p.2.merge_point_files st hInv) ⟨p2, hp2rest, hp2⟩

theorem extract_init_inv (fs : PyVal → Option (List (List Nat))) (f : TraceForest) :
    ExtractInv fs { file_contents := [], source_lines := f.source_lines, opens := [] } := by
  refine ⟨List.nodup_nil, ?_, ?_⟩
  · intro fl hm
    simp at hm
  · intro fl v hv
    simp [alistGet] at hv

/-- The C8 counterexample filesystem: only the file `b"B"` is readable (one
line `b"hi"`). -/
def c8fs : PyVal → Option (List (List Nat)) :=
  fun v => if v = PyVal.s [66] then some [[104, 105]] else none

/-- The C8 counterexample trace: merge points reference the unreadable file
`b"A"` first and the readable file `b"B"` second, line 1 each. -/
def c8trace : Trace :=
  { trace_type := "loop", unique_id := 0, inputargs := [], stages := [],
    last_mark := none, addrs := (-1, -1), my_patches := none, bridges := [],
    descr_numbers := [], counter := 0,
    merge_point_files := [(.s [65], [.i 1]), (.s [66], [.i 1])] }

def c8forest : TraceForest :=
  { version := 1, traces := [(0, c8trace)], addrs := [], timepos := 0, patches := [],
    source_lines := [] }

/-- C8 counterexample: with the unreadable file `b"A"` referenced first, the
extraction raises the propagated `IOError` — there is no per-file "source
unavailable" recording, extraction does not continue to the readable file
`b"B"` (which is never opened), and `source_lines` gains no entries for any
file, refuting the claim that the failure is non-fatal and scoped to one
file. -/
theorem extract_source_unreadable_fatal_counterexample_C8 :
    (TraceForest.extract_source_code_lines c8forest c8fs).2 = some PyErr.ioError
    ∧ (TraceForest.extract_source_code_lines c8forest c8fs).1.1.source_lines = []
    ∧ (TraceForest.extract_source_code_lines c8forest c8fs).1.2 = [] := by
  refine ⟨by decide, by decide, by decide⟩

/-- The forest for the persistence part of the amended C8: the readable file
`b"B"` is referenced before the unreadable `b"A"`. -/
def c8ztrace : Trace :=
  { c8trace with merge_point_files := [(.s [66], [.i 1]), (.s [65], [.i 1])] }

def c8zforest : TraceForest :=
  { c8forest with traces := [(0, c8ztrace)] }

/-- C8 (amended): an unreadable source file is fatal — the `open` failure
propagates out of `extract_source_code_lines`, stopping the extraction at
that file. No file is ever read from disk twice (first conjunct, for every
run); whenever some referenced file is unreadable the run raises an error
(second conjunct); the unreadable file itself contributes nothing — the state
is returned exactly as it was when `open` failed (third conjunct); and lines
appended for files processed before the failure persist in the forest, as the
in-place mutation keeps them (fourth conjunct: file `b"B"` keeps its line
although `b"A"` fails afterwards). -/
theorem extract_source_amended_C8 :
    (∀ (f : TraceForest) (fs : PyVal → Option (List (List Nat))),
        ((TraceForest.extract_source_code_lines f fs).1.2).Nodup)
    ∧ (∀ (f : TraceForest) (fs : PyVal → Option (List (List Nat))),
        (∃ p ∈ f.traces, ∃ q ∈ p.2.merge_point_files, fs q.1 = none) →
        ∃ e, (TraceForest.extract_source_code_lines f fs).2 = some e)
    ∧ (∀ (fs : PyVal → Option (List (List Nat))) (st : ExtractSt) (file : PyVal)
          (lines : List PyVal), ExtractInv fs st → fs file = none →
        extractOne fs st file lines = (st, some PyErr.ioError))
    ∧ TraceForest.extract_source_code_lines c8zforest c8fs
        = (({ c8zforest with source_lines := [(.s [66], [(1, [104, 105])])] },
            [PyVal.s [66]]), some PyErr.ioError) := by
  refine ⟨?_, ?_, extractOne_unreadable, by decide⟩
  · intro f fs
    exact (extractTraces_inv fs f.traces _ (extract_init_inv fs f)).1
  · intro f fs hex
    obtain ⟨e, he⟩ := extractTraces_bad fs f.traces _ (extract_init_inv fs f) hex
    exact ⟨e, he⟩

theorem extract_source_amended_C8_witness :
    ((TraceForest.extract_source_code_lines c8forest c8fs).1.2).Nodup
    ∧ (∃ e, (TraceForest.extract_source_code_lines c8forest c8fs).2 = some e)
    ∧ extractOne c8fs { file_contents := [], source_lines := [], opens := [] }
        (.s [65]) [.i 1]
      = ({ file_contents := [], source_lines := [], opens := [] }, some PyErr.ioError) :=
  ⟨extract_source_amended_C8.1 c8forest c8fs,
   extract_source_amended_C8.2.1 c8forest c8fs (by decide),
   extract_source_amended_C8.2.2.1 c8fs
     { file_contents := [], source_lines := [], opens := [] } (.s [65]) [.i 1]
     (extract_init_inv c8fs c8forest) (by decide)⟩

end VMLog
